import Mathlib

/-!
Verification of the process-execution and output-reconciliation orchestrator
in `src/fragpipe_runner/execute.py`.

The filesystem is modelled shallowly: a directory is an association list of
named entries, an entry is a text file or a nested directory.  The Python
functions `run_fragpipe`, `search_results_exist`, `clean_up_rawfile_directory`,
`_find_latest_log_file` and `_move_and_replace_folder_contents` are translated
into pure Lean functions over this model.  The external FragPipe process is an
oracle described by an `ExecBehavior` value: its exit classification, the text
it writes to stdout and stderr, and the entries it creates in its working
directory.
-/

set_option maxHeartbeats 1600000

namespace FragpipeRunner

/-- A filesystem entry: a regular file with text content, or a directory
holding named entries. -/
inductive FsEntry where
  | file (content : String)
  | dir (entries : List (String × FsEntry))

/-- Contents of one directory: named entries, in listing order. -/
abbrev DirT := List (String × FsEntry)

/-- Look up the entry with the given name (first match). -/
def findEntry (d : DirT) (n : String) : Option FsEntry :=
  match d with
  | [] => none
  | (m, e) :: rest => if m = n then some e else findEntry rest n

/-- Create or replace the entry with the given name. -/
def setEntry (d : DirT) (n : String) (e : FsEntry) : DirT :=
  match d with
  | [] => [(n, e)]
  | (m, e') :: rest => if m = n then (n, e) :: rest else (m, e') :: setEntry rest n e

/-- Delete every entry with the given name. -/
def removeEntry (d : DirT) (n : String) : DirT :=
  d.filter (fun p => p.1 ≠ n)

/-- The names present in a directory. -/
def keys (d : DirT) : List String :=
  d.map Prod.fst

/-- Apply a sequence of writes to a directory: each written entry is created,
replacing any existing entry of the same name.  This models the external
process populating its working directory. -/
def applyWrites (d : DirT) (ws : List (String × FsEntry)) : DirT :=
  ws.foldl (fun acc p => setEntry acc p.1 p.2) d

/-- Fixed name of the stdout redirect file (execute.py line 104). -/
def redirectLogName : String := "fragpipe_stdout_redirect.log"

/-- Name of the result artifact checked by `search_results_exist`
(execute.py line 171). -/
def combinedProteinName : String := "combined_protein.tsv"

/-- Recognition rule for canonical FragPipe log names (execute.py line 229):
the glob pattern `log_*.txt` together with the filter `len(f.name) == 27`.
Glob matching is expressed on the character list: the first four characters
are `log_`, the characters from position 23 on are `.txt`, and the total
length is 27. -/
def isCanonicalLogName (n : String) : Bool :=
  n.data.take 4 == "log_".data && n.data.drop 23 == ".txt".data && n.length == 27

/-- Largest string in a list, or `none` when the list is empty.  This models
`sorted(log_files, reverse=True)[0]` in execute.py line 231. -/
def listMaxStr : List String → Option String
  | [] => none
  | n :: rest =>
    match listMaxStr rest with
    | none => some n
    | some m => some (if m ≤ n then n else m)

/-- Model of `_find_latest_log_file` (execute.py lines 220-232): among the
entry names matching the canonical-log rule, return the largest one in
lexical order (the first element of the reverse-sorted list), or `none`
when there is no match. -/
def find_latest_log_file (d : DirT) : Option String :=
  listMaxStr ((keys d).filter isCanonicalLogName)

/-- Number of canonical log files present in a directory. -/
def countCanonicalLogs (d : DirT) : Nat :=
  ((keys d).filter isCanonicalLogName).length

/-- A local date and time, used to stamp a synthesized log name. -/
structure DateTime where
  year : Nat
  month : Nat
  day : Nat
  hour : Nat
  minute : Nat
  second : Nat

/-- Decimal digit character for the last decimal digit of a number. -/
def digitChar (d : Nat) : Char :=
  Char.ofNat (48 + d % 10)

/-- Two-digit zero-padded decimal field, as printed by strftime for
`%m`, `%d`, `%H`, `%M` and `%S`. -/
def pad2 (n : Nat) : String :=
  String.mk [digitChar (n / 10), digitChar n]

/-- Four-digit zero-padded decimal field, as printed by strftime for `%Y`
(years 0 through 9999). -/
def pad4 (n : Nat) : String :=
  String.mk [digitChar (n / 1000), digitChar (n / 100), digitChar (n / 10), digitChar n]

/-- Model of `time.strftime("%Y-%m-%d_%H-%M-%S")` (execute.py line 150). -/
def strftimeTimestamp (t : DateTime) : String :=
  pad4 t.year ++ "-" ++ pad2 t.month ++ "-" ++ pad2 t.day ++ "_" ++
    pad2 t.hour ++ "-" ++ pad2 t.minute ++ "-" ++ pad2 t.second

/-- The synthesized canonical log filename, `f"log_{time_stamp}.txt"`
(execute.py line 151). -/
def canonicalLogName (ts : String) : String :=
  "log_" ++ ts ++ ".txt"

/-- Rename an entry: the Python `Path.rename` of execute.py line 152.  When
the old name is absent the directory is returned unchanged (Python would
raise there; in the runner the redirect log always exists at this point). -/
def renameEntry (d : DirT) (old new : String) : DirT :=
  match findEntry d old with
  | some e => setEntry (removeEntry d old) new e
  | none => d

/-- Canonical-log reconciliation, execute.py lines 143-154: if a canonical
log is discoverable in the final output directory, delete the redirect log;
otherwise rename the redirect log into a freshly timestamped canonical
name. -/
def logReconcile (d : DirT) (ts : String) : DirT :=
  match find_latest_log_file d with
  | some _ => removeEntry d redirectLogName
  | none => renameEntry d redirectLogName (canonicalLogName ts)

/-- What exists at a given path: nothing, a regular file, or a directory
with the given contents. -/
inductive PathState where
  | missing
  | fileAt (content : String)
  | dirAt (d : DirT)

/-- Model of `search_results_exist` (execute.py lines 159-183): false when
the path is missing or not a directory; otherwise true iff a canonical log
is discoverable or the `combined_protein.tsv` entry exists.  The function
is pure: it never mutates the model filesystem and, being total, never
raises. -/
def search_results_exist (p : PathState) : Bool :=
  match p with
  | PathState.dirAt d =>
    if (find_latest_log_file d).isSome then true
    else if (findEntry d combinedProteinName).isSome then true
    else false
  | _ => false

/-- Temporary-artifact suffix test, execute.py lines 194-197 and 207: the
recursive glob patterns `*.mzBIN` and `*_uncalibrated.mzML` match exactly
the names ending in those suffixes. -/
def matchesTempPattern (n : String) : Bool :=
  ".mzBIN".data.isSuffixOf n.data || "_uncalibrated.mzML".data.isSuffixOf n.data

/-- Whether the tree contains a directory entry whose name matches a
temporary-artifact pattern.  Such an entry is collected by `rglob` and then
makes `Path.unlink` raise, so its presence is the raising case of the
cleanup. -/
def anyMatchingDir : List (String × FsEntry) → Bool
  | [] => false
  | (_, FsEntry.file _) :: rest => anyMatchingDir rest
  | (n, FsEntry.dir es) :: rest => matchesTempPattern n || anyMatchingDir es || anyMatchingDir rest

/-- Remove, recursively, every file whose name matches a temporary-artifact
pattern. -/
def removeMatching : List (String × FsEntry) → List (String × FsEntry)
  | [] => []
  | (n, FsEntry.file c) :: rest =>
    if matchesTempPattern n then removeMatching rest
    else (n, FsEntry.file c) :: removeMatching rest
  | (n, FsEntry.dir es) :: rest => (n, FsEntry.dir (removeMatching es)) :: removeMatching rest

/-- Number of entries collected by the two recursive globs of
execute.py lines 205-207 (the length of `temp_files`). -/
def countMatching : List (String × FsEntry) → Nat
  | [] => 0
  | (n, FsEntry.file _) :: rest =>
    (if matchesTempPattern n then 1 else 0) + countMatching rest
  | (n, FsEntry.dir es) :: rest =>
    (if matchesTempPattern n then 1 else 0) + countMatching es + countMatching rest

/-- Model of `clean_up_rawfile_directory` (execute.py lines 186-217) applied
to the contents of an existing directory: collect all entries matching the
temporary patterns, then unlink each.  When a matching entry is a directory
`unlink` raises (`none`); otherwise the matching files are removed and the
count of collected entries is reported. -/
def cleanEntries (d : List (String × FsEntry)) : Option (List (String × FsEntry) × Nat) :=
  if anyMatchingDir d then none else some (removeMatching d, countMatching d)

/-- Model of `clean_up_rawfile_directory` on an arbitrary path: a missing
path or a non-directory path is logged and the function returns without
touching anything (execute.py lines 198-203); a directory is cleaned by
`cleanEntries`.  The result is the state left behind together with the
number of deleted files, or `none` when the deletion loop raises. -/
def clean_up_rawfile_directory (p : PathState) : Option (PathState × Nat) :=
  match p with
  | PathState.missing => some (PathState.missing, 0)
  | PathState.fileAt c => some (PathState.fileAt c, 0)
  | PathState.dirAt d =>
    (cleanEntries d).map (fun r => (PathState.dirAt r.1, r.2))

/-- Model of `_move_and_replace_folder_contents` (execute.py lines 235-265),
returning the new contents of the destination directory.  Each source entry
is processed in listing order: when source and destination entries of the
same name are both directories they are merged recursively; otherwise any
existing destination entry is removed and the source entry is moved into
its place.  The removal of the emptied source tree is a separate effect of
the caller's state, modelled in `run_fragpipe`. -/
def move_and_replace_folder_contents (src : List (String × FsEntry)) (dest : DirT) : DirT :=
  match src with
  | [] => dest
  | (n, FsEntry.file c) :: rest =>
    move_and_replace_folder_contents rest (setEntry dest n (FsEntry.file c))
  | (n, FsEntry.dir se) :: rest =>
    match findEntry dest n with
    | some (FsEntry.dir de) =>
      move_and_replace_folder_contents rest
        (setEntry dest n (FsEntry.dir (move_and_replace_folder_contents se de)))
    | _ => move_and_replace_folder_contents rest (setEntry dest n (FsEntry.dir se))

/-- Host operating-system family, the value of `os.name` (execute.py
lines 58-63): `nt`, `posix`, or anything else. -/
inductive OSName where
  | nt
  | posix
  | other

/-- Platform-specific executable filename (execute.py lines 58-63); `none`
means the unsupported-platform error is raised. -/
def executableName (os : OSName) : Option String :=
  match os with
  | OSName.nt => some "fragpipe.bat"
  | OSName.posix => some "fragpipe"
  | OSName.other => none

/-- Resolved executable path `fragpipe_root / "bin" / executable_name`
(execute.py line 65). -/
def fragpipeExecPath (root name : String) : String :=
  root ++ "/bin/" ++ name

/-- The argument vector built in execute.py lines 88-101: fixed flags, the
memory ceiling always present as a decimal string, and the thread flag
appended only for a strictly positive requested thread count. -/
def buildCmd (execPath workflowPath manifestPath workdirPath : String)
    (ram threads : Int) : List String :=
  [execPath, "--headless",
   "--workflow", workflowPath,
   "--manifest", manifestPath,
   "--workdir", workdirPath,
   "--ram", toString ram] ++
  (if threads > 0 then ["--threads", toString threads] else [])

/-- Precondition errors raised by `run_fragpipe` before any state change:
`OSError` for an unsupported platform (line 63) and `FileNotFoundError` for
a missing executable (lines 66-70). -/
inductive RunError where
  | unsupportedOS
  | execNotFound

/-- How one invocation of `run_fragpipe` ends: a returned boolean, a
precondition error, or an exception escaping the execution step (one that
is not the `CalledProcessError` handled in lines 121-126). -/
inductive RunExit where
  | ok (success : Bool)
  | precondError (e : RunError)
  | execException

/-- Classification of the external process run: exit status zero, non-zero
exit status (subprocess.run with check=True raises `CalledProcessError`,
caught in line 121), or some other exception escaping the execution step. -/
inductive ExecOutcome where
  | exitZero
  | exitNonZero
  | raised

/-- Oracle for one run of the external tool. -/
structure ExecBehavior where
  outcome : ExecOutcome
  stdoutContent : String
  stderrContent : String
  writes : List (String × FsEntry)

/-- The pieces of filesystem state owned or touched by `run_fragpipe`:
the final output directory (absent or with contents), whether the staging
root exists, and the staging subdirectory (absent or with contents). -/
structure World where
  outputDir : Option DirT
  stagingRootExists : Bool
  stagingSubdir : Option DirT

/-- Which reconciliation steps were executed during one invocation. -/
structure RunTrace where
  mergePerformed : Bool
  logReconPerformed : Bool

/-- Outcome classification of the try/except of execute.py lines 105-126:
`some true` for exit zero, `some false` for the caught `CalledProcessError`,
`none` for an exception that propagates. -/
def execClassify (o : ExecOutcome) : Option Bool :=
  match o with
  | ExecOutcome.exitZero => some true
  | ExecOutcome.exitNonZero => some false
  | ExecOutcome.raised => none

/-- Final output directory contents right before the process runs: the
directory is created if absent (line 73) and the redirect log is opened for
truncating write in it (lines 104-107), capturing the process stdout. -/
def preExecDir (w : World) (beh : ExecBehavior) : DirT :=
  setEntry (w.outputDir.getD []) redirectLogName (FsEntry.file beh.stdoutContent)

/-- Final output directory contents after the process has run and, when a
staging directory is used, after the finally-block merge of lines 127-141:
with staging, the process writes into the fresh staging subdirectory and the
staged tree is then merged destructively into the final directory; without
staging, the process writes directly into the final directory. -/
def postExecDir (useStaging : Bool) (w : World) (beh : ExecBehavior) : DirT :=
  if useStaging then
    move_and_replace_folder_contents (applyWrites [] beh.writes) (preExecDir w beh)
  else
    applyWrites (preExecDir w beh) beh.writes

/-- Model of `run_fragpipe` (execute.py lines 14-156).  Precondition checks
come first and leave the world untouched.  Then the output directory is
created, the redirect log opened, the process run (with staging if a
temporary directory was supplied), the staged tree merged back in the
finally block, and — only when the execution step did not raise — the
canonical-log reconciliation of lines 143-154 performed before returning
the boolean outcome. -/
def run_fragpipe (os : OSName) (fragpipeRoot : String) (fsExists : String → Bool)
    (useStaging : Bool) (w : World) (beh : ExecBehavior) (t : DateTime) :
    RunExit × World × RunTrace :=
  match executableName os with
  | none => (RunExit.precondError RunError.unsupportedOS, w, ⟨false, false⟩)
  | some en =>
    if fsExists (fragpipeExecPath fragpipeRoot en) then
      let fd2 := postExecDir useStaging w beh
      let subdirAfter := if useStaging then none else w.stagingSubdir
      match execClassify beh.outcome with
      | none =>
        (RunExit.execException,
         ⟨some fd2, w.stagingRootExists, subdirAfter⟩,
         ⟨useStaging, false⟩)
      | some b =>
        (RunExit.ok b,
         ⟨some (logReconcile fd2 (strftimeTimestamp t)), w.stagingRootExists, subdirAfter⟩,
         ⟨useStaging, true⟩)
    else
      (RunExit.precondError RunError.execNotFound, w, ⟨false, false⟩)

/-! Helper lemmas about the directory model. -/

theorem findEntry_setEntry_self (d : DirT) (n : String) (e : FsEntry) :
    findEntry (setEntry d n e) n = some e := by
  induction d with
  | nil => simp [setEntry, findEntry]
  | cons hd rest ih =>
    obtain ⟨m, e'⟩ := hd
    by_cases h : m = n
    · simp [setEntry, findEntry, h]
    · simp [setEntry, findEntry, h, ih]

theorem findEntry_setEntry_ne (d : DirT) (n q : String) (e : FsEntry) (h : q ≠ n) :
    findEntry (setEntry d n e) q = findEntry d q := by
  induction d with
  | nil => simp [setEntry, findEntry, Ne.symm h]
  | cons hd rest ih =>
    obtain ⟨m, e'⟩ := hd
    by_cases hm : m = n
    · subst hm
      simp [setEntry, findEntry, Ne.symm h]
    · simp only [setEntry, if_neg hm, findEntry]
      by_cases hq : m = q
      · simp [hq]
      · simp [hq, ih]

theorem findEntry_removeEntry_self (d : DirT) (n : String) :
    findEntry (removeEntry d n) n = none := by
  induction d with
  | nil => simp [removeEntry, findEntry]
  | cons hd rest ih =>
    obtain ⟨m, e⟩ := hd
    by_cases h : m = n
    · simpa [removeEntry, h] using ih
    · simpa [removeEntry, findEntry, h] using ih

theorem findEntry_removeEntry_ne (d : DirT) (n q : String) (h : q ≠ n) :
    findEntry (removeEntry d n) q = findEntry d q := by
  induction d with
  | nil => simp [removeEntry]
  | cons hd rest ih =>
    obtain ⟨m, e⟩ := hd
    by_cases hm : m = n
    · subst hm
      simp [removeEntry, List.filter_cons, findEntry, Ne.symm h] at ih ⊢
      exact ih
    · by_cases hq : m = q
      · simp [removeEntry, List.filter_cons, findEntry, hm, hq, h]
      · simp [removeEntry, List.filter_cons, findEntry, hm, hq] at ih ⊢
        exact ih

theorem findEntry_isSome_iff_mem_keys (d : DirT) (n : String) :
    (findEntry d n).isSome = true ↔ n ∈ keys d := by
  induction d with
  | nil => simp [findEntry, keys]
  | cons hd rest ih =>
    obtain ⟨m, e⟩ := hd
    by_cases h : m = n
    · simp [findEntry, keys, h]
    · simp [findEntry, keys, h, ih, Ne.symm h]

theorem mem_keys_removeEntry (d : DirT) (n q : String) (hq : q ≠ n) (h : q ∈ keys d) :
    q ∈ keys (removeEntry d n) := by
  induction d with
  | nil => simp [keys] at h
  | cons hd rest ih =>
    obtain ⟨m, e⟩ := hd
    simp only [keys, List.map_cons, List.mem_cons] at h
    rcases h with h | h
    · subst h
      simp [removeEntry, List.filter_cons, hq, keys]
    · by_cases hm : m = n
      · simpa [removeEntry, List.filter_cons, hm, keys] using ih h
      · simp only [removeEntry, List.filter_cons] at ih ⊢
        simp only [keys] at ih ⊢
        simp [hm]
        right
        simpa [removeEntry, keys] using ih h

theorem findEntry_applyWrites_isSome (ws : List (String × FsEntry)) (d : DirT) (n : String)
    (h : (findEntry d n).isSome = true) :
    (findEntry (applyWrites d ws) n).isSome = true := by
  induction ws generalizing d with
  | nil => simpa [applyWrites] using h
  | cons hd rest ih =>
    obtain ⟨m, e⟩ := hd
    have step : (findEntry (setEntry d m e) n).isSome = true := by
      by_cases hm : n = m
      · subst hm
        simp [findEntry_setEntry_self]
      · rw [findEntry_setEntry_ne d m n e hm]
        exact h
    simpa [applyWrites] using ih (setEntry d m e) step

theorem mem_applyWrites_of_mem_writes (ws : List (String × FsEntry)) (d : DirT) (n : String)
    (h : n ∈ ws.map Prod.fst) :
    (findEntry (applyWrites d ws) n).isSome = true := by
  induction ws generalizing d with
  | nil => simp at h
  | cons hd rest ih =>
    obtain ⟨m, e⟩ := hd
    simp only [List.map_cons, List.mem_cons] at h
    rcases h with h | h
    · subst h
      have hset : (findEntry (setEntry d n e) n).isSome = true := by
        simp [findEntry_setEntry_self]
      simpa [applyWrites, List.foldl_cons] using
        findEntry_applyWrites_isSome rest (setEntry d n e) n hset
    · simpa [applyWrites] using ih (setEntry d m e) h

/-! Helper lemmas about the lexical maximum. -/

theorem listMaxStr_eq_none_iff (l : List String) :
    listMaxStr l = none ↔ l = [] := by
  cases l with
  | nil => simp [listMaxStr]
  | cons n rest =>
    simp only [listMaxStr]
    cases listMaxStr rest <;> simp

theorem listMaxStr_spec (l : List String) (m : String) (h : listMaxStr l = some m) :
    m ∈ l ∧ ∀ x ∈ l, x ≤ m := by
  induction l generalizing m with
  | nil => simp [listMaxStr] at h
  | cons n rest ih =>
    simp only [listMaxStr] at h
    cases hrest : listMaxStr rest with
    | none =>
      rw [hrest] at h
      have hempty : rest = [] := (listMaxStr_eq_none_iff rest).mp hrest
      subst hempty
      simp only [Option.some.injEq] at h
      subst h
      simp
    | some m' =>
      rw [hrest] at h
      simp only [Option.some.injEq] at h
      obtain ⟨hmem, hmax⟩ := ih m' hrest
      by_cases hle : m' ≤ n
      · rw [if_pos hle] at h
        subst h
        refine ⟨by simp, ?_⟩
        intro x hx
        rcases List.mem_cons.mp hx with hx | hx
        · exact le_of_eq hx
        · exact le_trans (hmax x hx) hle
      · rw [if_neg hle] at h
        subst h
        refine ⟨by simp [hmem], ?_⟩
        intro x hx
        rcases List.mem_cons.mp hx with hx | hx
        · exact le_of_lt (hx ▸ lt_of_not_le hle)
        · exact hmax x hx

/-! Helper lemmas about canonical log names. -/

theorem pad2_length (n : Nat) : (pad2 n).length = 2 := rfl

theorem pad4_length (n : Nat) : (pad4 n).length = 4 := rfl

theorem strftimeTimestamp_length (t : DateTime) : (strftimeTimestamp t).length = 19 := by
  simp only [strftimeTimestamp, String.length_append, pad2_length, pad4_length]
  decide

theorem isCanonicalLogName_of_parts (ts : String) (h : ts.length = 19) :
    isCanonicalLogName (canonicalLogName ts) = true := by
  have hdata : (canonicalLogName ts).data = "log_".data ++ (ts.data ++ ".txt".data) := by
    simp [canonicalLogName, String.data_append]
  have hlen : ts.data.length = 19 := h
  have htake : (canonicalLogName ts).data.take 4 = "log_".data := by
    rw [hdata]
    exact List.take_left "log_".data (ts.data ++ ".txt".data)
  have hdrop : (canonicalLogName ts).data.drop 23 = ".txt".data := by
    rw [hdata, ← List.append_assoc]
    have hl : ("log_".data ++ ts.data).length = 23 := by
      simp [List.length_append, hlen]
    exact hl ▸ List.drop_left ("log_".data ++ ts.data) ".txt".data
  have hlength : (canonicalLogName ts).length = 27 := by
    show (canonicalLogName ts).data.length = 27
    rw [hdata]
    simp [List.length_append, hlen]
  simp [isCanonicalLogName, htake, hdrop, hlength]

theorem isCanonicalLogName_redirect : isCanonicalLogName redirectLogName = false := by
  decide

theorem canonicalLogName_ne_redirect (ts : String) (h : ts.length = 19) :
    canonicalLogName ts ≠ redirectLogName := by
  intro heq
  have h27 : (canonicalLogName ts).length = 27 := by
    show (canonicalLogName ts).data.length = 27
    have : (canonicalLogName ts).data = "log_".data ++ (ts.data ++ ".txt".data) := by
      simp [canonicalLogName, String.data_append]
    rw [this]
    simp [List.length_append, (h : ts.data.length = 19)]
  rw [heq] at h27
  exact absurd h27 (by decide)

/-! Helper lemmas about latest-log discovery. -/

theorem find_latest_log_file_eq_none_iff (d : DirT) :
    find_latest_log_file d = none ↔ ∀ n ∈ keys d, isCanonicalLogName n = false := by
  rw [find_latest_log_file, listMaxStr_eq_none_iff, List.filter_eq_nil_iff]
  constructor
  · intro h n hn
    by_contra hc
    exact h n hn (by simpa using hc)
  · intro h n hn hcanon
    simp [h n hn] at hcanon

theorem find_latest_log_file_spec (d : DirT) (m : String)
    (h : find_latest_log_file d = some m) :
    m ∈ keys d ∧ isCanonicalLogName m = true ∧
      ∀ n ∈ keys d, isCanonicalLogName n = true → n ≤ m := by
  obtain ⟨hmem, hmax⟩ := listMaxStr_spec _ m h
  rw [List.mem_filter] at hmem
  refine ⟨hmem.1, by simpa using hmem.2, ?_⟩
  intro n hn hcanon
  exact hmax n (List.mem_filter.mpr ⟨hn, by simpa using hcanon⟩)

theorem find_latest_log_file_isSome (d : DirT) (n : String)
    (hn : n ∈ keys d) (hcanon : isCanonicalLogName n = true) :
    (find_latest_log_file d).isSome = true := by
  rcases hfind : find_latest_log_file d with _ | m
  · rw [find_latest_log_file_eq_none_iff] at hfind
    simp [hfind n hn] at hcanon
  · simp

/-! Helper lemmas about canonical-log reconciliation. -/

theorem logReconcile_has_log (d : DirT) (ts : String)
    (hred : (findEntry d redirectLogName).isSome = true) (hts : ts.length = 19) :
    (∃ n ∈ keys (logReconcile d ts), isCanonicalLogName n = true) ∧
      findEntry (logReconcile d ts) redirectLogName = none := by
  rcases hfind : find_latest_log_file d with _ | m
  · rcases hentry : findEntry d redirectLogName with _ | e
    · rw [hentry] at hred
      simp at hred
    · have hne : canonicalLogName ts ≠ redirectLogName := canonicalLogName_ne_redirect ts hts
      have hres : logReconcile d ts =
          setEntry (removeEntry d redirectLogName) (canonicalLogName ts) e := by
        simp [logReconcile, hfind, renameEntry, hentry]
      constructor
      · refine ⟨canonicalLogName ts, ?_, isCanonicalLogName_of_parts ts hts⟩
        rw [← findEntry_isSome_iff_mem_keys, hres]
        simp [findEntry_setEntry_self]
      · rw [hres, findEntry_setEntry_ne _ _ _ _ (Ne.symm hne)]
        exact findEntry_removeEntry_self d redirectLogName
  · obtain ⟨hmem, hcanon, _⟩ := find_latest_log_file_spec d m hfind
    have hres : logReconcile d ts = removeEntry d redirectLogName := by
      simp [logReconcile, hfind]
    have hmne : m ≠ redirectLogName := by
      intro heq
      rw [heq, isCanonicalLogName_redirect] at hcanon
      exact Bool.false_ne_true hcanon
    constructor
    · exact ⟨m, hres ▸ mem_keys_removeEntry d redirectLogName m hmne hmem, hcanon⟩
    · rw [hres]
      exact findEntry_removeEntry_self d redirectLogName

theorem logReconcile_preserves (d : DirT) (ts n : String)
    (hne : n ≠ redirectLogName) (h : (findEntry d n).isSome = true) :
    (findEntry (logReconcile d ts) n).isSome = true := by
  rcases hfind : find_latest_log_file d with _ | m
  · simp only [logReconcile, hfind]
    rcases hentry : findEntry d redirectLogName with _ | e
    · simpa [renameEntry, hentry] using h
    · simp only [renameEntry, hentry]
      by_cases hnew : n = canonicalLogName ts
      · subst hnew
        simp [findEntry_setEntry_self]
      · rw [findEntry_setEntry_ne _ _ _ _ hnew, findEntry_removeEntry_ne d _ _ hne]
        exact h
  · simp only [logReconcile, hfind]
    rw [findEntry_removeEntry_ne d _ _ hne]
    exact h

/-! Helper lemmas about the destructive merge. -/

theorem merge_findEntry_not_mem (src : List (String × FsEntry)) (dest : DirT) (q : String)
    (h : q ∉ src.map Prod.fst) :
    findEntry (move_and_replace_folder_contents src dest) q = findEntry dest q := by
  induction src generalizing dest with
  | nil => simp [move_and_replace_folder_contents]
  | cons hd rest ih =>
    obtain ⟨n, s⟩ := hd
    simp only [List.map_cons, List.mem_cons, not_or] at h
    obtain ⟨hqn, hqrest⟩ := h
    cases s with
    | file c =>
      rw [move_and_replace_folder_contents, ih (setEntry dest n (FsEntry.file c)) hqrest,
        findEntry_setEntry_ne dest n q _ hqn]
    | dir se =>
      rw [move_and_replace_folder_contents]
      rcases hfd : findEntry dest n with _ | e
      · rw [ih _ hqrest, findEntry_setEntry_ne dest n q _ hqn]
      · cases e with
        | file c' =>
          rw [ih _ hqrest, findEntry_setEntry_ne dest n q _ hqn]
        | dir de =>
          rw [ih _ hqrest, findEntry_setEntry_ne dest n q _ hqn]

theorem merge_findEntry_preserves (src : List (String × FsEntry)) (dest : DirT) (q : String)
    (h : (findEntry dest q).isSome = true) :
    (findEntry (move_and_replace_folder_contents src dest) q).isSome = true := by
  induction src generalizing dest with
  | nil => simpa [move_and_replace_folder_contents] using h
  | cons hd rest ih =>
    obtain ⟨n, s⟩ := hd
    have hset : ∀ e : FsEntry, (findEntry (setEntry dest n e) q).isSome = true := by
      intro e
      by_cases hq : q = n
      · subst hq
        simp [findEntry_setEntry_self]
      · rw [findEntry_setEntry_ne dest n q e hq]
        exact h
    cases s with
    | file c =>
      rw [move_and_replace_folder_contents]
      exact ih _ (hset _)
    | dir se =>
      rw [move_and_replace_folder_contents]
      rcases hfd : findEntry dest n with _ | e
      · exact ih _ (hset _)
      · cases e with
        | file c' => exact ih _ (hset _)
        | dir de => exact ih _ (hset _)

theorem merge_findEntry_mem (src : List (String × FsEntry)) (dest : DirT) (q : String)
    (h : q ∈ src.map Prod.fst) :
    (findEntry (move_and_replace_folder_contents src dest) q).isSome = true := by
  induction src generalizing dest with
  | nil => simp at h
  | cons hd rest ih =>
    obtain ⟨n, s⟩ := hd
    by_cases hmem : q ∈ rest.map Prod.fst
    · cases s with
      | file c =>
        rw [move_and_replace_folder_contents]
        exact ih _ hmem
      | dir se =>
        rw [move_and_replace_folder_contents]
        rcases hfd : findEntry dest n with _ | e
        · exact ih _ hmem
        · cases e with
          | file c' => exact ih _ hmem
          | dir de => exact ih _ hmem
    · have hqn : q = n := by
        simp only [List.map_cons, List.mem_cons] at h
        tauto
      subst hqn
      have hafter : ∀ e : FsEntry,
          (findEntry (move_and_replace_folder_contents rest (setEntry dest q e)) q).isSome = true := by
        intro e
        apply merge_findEntry_preserves
        simp [findEntry_setEntry_self]
      cases s with
      | file c =>
        rw [move_and_replace_folder_contents]
        exact hafter _
      | dir se =>
        rw [move_and_replace_folder_contents]
        rcases hfd : findEntry dest q with _ | e
        · exact hafter _
        · cases e with
          | file c' => exact hafter _
          | dir de => exact hafter _

theorem merge_findEntry_eq (src : List (String × FsEntry)) (dest : DirT) (q : String)
    (hnd : (src.map Prod.fst).Nodup) :
    findEntry (move_and_replace_folder_contents src dest) q =
      match findEntry src q, findEntry dest q with
      | some (FsEntry.dir se), some (FsEntry.dir de) =>
        some (FsEntry.dir (move_and_replace_folder_contents se de))
      | some s, _ => some s
      | none, _ => findEntry dest q := by
  induction src generalizing dest with
  | nil => simp [move_and_replace_folder_contents, findEntry]
  | cons hd rest ih =>
    obtain ⟨n, s⟩ := hd
    simp only [List.map_cons, List.nodup_cons] at hnd
    obtain ⟨hnotin, hndrest⟩ := hnd
    by_cases hq : q = n
    · subst hq
      have hsrc : findEntry ((q, s) :: rest) q = some s := by
        simp [findEntry]
      rw [hsrc]
      cases s with
      | file c =>
        rw [move_and_replace_folder_contents,
          merge_findEntry_not_mem rest _ q hnotin,
          findEntry_setEntry_self]
      | dir se =>
        rw [move_and_replace_folder_contents]
        rcases hfd : findEntry dest q with _ | e
        · rw [merge_findEntry_not_mem rest _ q hnotin, findEntry_setEntry_self]
        · cases e with
          | file c' =>
            rw [merge_findEntry_not_mem rest _ q hnotin, findEntry_setEntry_self]
          | dir de =>
            rw [merge_findEntry_not_mem rest _ q hnotin, findEntry_setEntry_self]
    · have hsrc : findEntry ((n, s) :: rest) q = findEntry rest q := by
        simp [findEntry, Ne.symm hq]
      rw [hsrc]
      cases s with
      | file c =>
        rw [move_and_replace_folder_contents, ih _ hndrest,
          findEntry_setEntry_ne dest n q _ hq]
      | dir se =>
        rw [move_and_replace_folder_contents]
        rcases hfd : findEntry dest n with _ | e
        · rw [ih _ hndrest, findEntry_setEntry_ne dest n q _ hq]
        · cases e with
          | file c' =>
            rw [ih _ hndrest, findEntry_setEntry_ne dest n q _ hq]
          | dir de =>
            rw [ih _ hndrest, findEntry_setEntry_ne dest n q _ hq]

/-! Helper lemmas about the cleanup pass. -/

theorem anyMatchingDir_removeMatching (d : List (String × FsEntry))
    (h : anyMatchingDir d = false) :
    anyMatchingDir (removeMatching d) = false := by
  induction d using anyMatchingDir.induct with
  | case1 => simp [removeMatching, anyMatchingDir]
  | case2 n c rest ih =>
    rw [anyMatchingDir] at h
    by_cases hm : matchesTempPattern n
    · simpa [removeMatching, hm] using ih h
    · simpa [removeMatching, anyMatchingDir, hm] using ih h
  | case3 n es rest ih1 ih2 =>
    rw [anyMatchingDir] at h
    simp only [Bool.or_eq_false_iff] at h
    obtain ⟨⟨hm, hes⟩, hrest⟩ := h
    simp [removeMatching, anyMatchingDir, hm, ih1 hes, ih2 hrest]

theorem countMatching_removeMatching (d : List (String × FsEntry))
    (h : anyMatchingDir d = false) :
    countMatching (removeMatching d) = 0 := by
  induction d using anyMatchingDir.induct with
  | case1 => simp [removeMatching, countMatching]
  | case2 n c rest ih =>
    rw [anyMatchingDir] at h
    by_cases hm : matchesTempPattern n
    · simpa [removeMatching, hm] using ih h
    · simpa [removeMatching, countMatching, hm] using ih h
  | case3 n es rest ih1 ih2 =>
    rw [anyMatchingDir] at h
    simp only [Bool.or_eq_false_iff] at h
    obtain ⟨⟨hm, hes⟩, hrest⟩ := h
    simp [removeMatching, countMatching, hm, ih1 hes, ih2 hrest]

theorem removeMatching_idem (d : List (String × FsEntry))
    (h : anyMatchingDir d = false) :
    removeMatching (removeMatching d) = removeMatching d := by
  induction d using anyMatchingDir.induct with
  | case1 => simp [removeMatching]
  | case2 n c rest ih =>
    rw [anyMatchingDir] at h
    by_cases hm : matchesTempPattern n
    · simpa [removeMatching, hm] using ih h
    · simpa [removeMatching, hm] using ih h
  | case3 n es rest ih1 ih2 =>
    rw [anyMatchingDir] at h
    simp only [Bool.or_eq_false_iff] at h
    obtain ⟨⟨hm, hes⟩, hrest⟩ := h
    simp [removeMatching, ih1 hes, ih2 hrest]

theorem cleanEntries_idem (d d' : List (String × FsEntry)) (k : Nat)
    (h : cleanEntries d = some (d', k)) :
    cleanEntries d' = some (d', 0) := by
  rw [cleanEntries] at h
  by_cases hany : anyMatchingDir d
  · simp [hany] at h
  · simp only [Bool.not_eq_true] at hany
    rw [if_neg (by simp [hany])] at h
    simp only [Option.some.injEq, Prod.mk.injEq] at h
    obtain ⟨hd', _⟩ := h
    subst hd'
    rw [cleanEntries, if_neg (by simp [anyMatchingDir_removeMatching d hany]),
      removeMatching_idem d hany, countMatching_removeMatching d hany]

/-! Helper lemmas about the run orchestrator. -/

theorem run_fragpipe_ok (os : OSName) (en root : String) (fs : String → Bool)
    (us : Bool) (w : World) (beh : ExecBehavior) (t : DateTime) (b : Bool)
    (hen : executableName os = some en)
    (hfs : fs (fragpipeExecPath root en) = true)
    (hexec : execClassify beh.outcome = some b) :
    run_fragpipe os root fs us w beh t =
      (RunExit.ok b,
       ⟨some (logReconcile (postExecDir us w beh) (strftimeTimestamp t)),
        w.stagingRootExists, if us then none else w.stagingSubdir⟩,
       ⟨us, true⟩) := by
  rw [run_fragpipe, hen]
  simp only [hfs, if_true, hexec]

theorem run_fragpipe_exc (os : OSName) (en root : String) (fs : String → Bool)
    (us : Bool) (w : World) (beh : ExecBehavior) (t : DateTime)
    (hen : executableName os = some en)
    (hfs : fs (fragpipeExecPath root en) = true)
    (hexec : execClassify beh.outcome = none) :
    run_fragpipe os root fs us w beh t =
      (RunExit.execException,
       ⟨some (postExecDir us w beh),
        w.stagingRootExists, if us then none else w.stagingSubdir⟩,
       ⟨us, false⟩) := by
  rw [run_fragpipe, hen]
  simp only [hfs, if_true, hexec]

theorem postExecDir_redirect_isSome (us : Bool) (w : World) (beh : ExecBehavior) :
    (findEntry (postExecDir us w beh) redirectLogName).isSome = true := by
  have hpre : (findEntry (preExecDir w beh) redirectLogName).isSome = true := by
    simp [preExecDir, findEntry_setEntry_self]
  cases us with
  | true =>
    simpa [postExecDir] using
      merge_findEntry_preserves (applyWrites [] beh.writes) (preExecDir w beh) redirectLogName hpre
  | false =>
    simpa [postExecDir] using
      findEntry_applyWrites_isSome beh.writes (preExecDir w beh) redirectLogName hpre

/-! Claim theorems. -/

/-- C1: whenever the preconditions pass and the external process is spawned,
`run_fragpipe` returns (rather than raising) the boolean classification of the
exit status: `true` on exit zero regardless of the captured stderr text, and
`false` on a non-zero exit regardless of the stdout text — a non-zero exit is
converted to a return value, never propagated as an exception. -/
theorem claim1_run_outcome_matches_exit (os : OSName) (en root : String)
    (fs : String → Bool) (us : Bool) (w : World) (t : DateTime)
    (so se : String) (ws : List (String × FsEntry))
    (hen : executableName os = some en)
    (hfs : fs (fragpipeExecPath root en) = true) :
    (run_fragpipe os root fs us w ⟨ExecOutcome.exitZero, so, se, ws⟩ t).1 = RunExit.ok true ∧
    (run_fragpipe os root fs us w ⟨ExecOutcome.exitNonZero, so, se, ws⟩ t).1 = RunExit.ok false := by
  constructor
  · rw [run_fragpipe_ok os en root fs us w ⟨ExecOutcome.exitZero, so, se, ws⟩ t true hen hfs rfl]
  · rw [run_fragpipe_ok os en root fs us w ⟨ExecOutcome.exitNonZero, so, se, ws⟩ t false hen hfs rfl]

/-- Witness for C1 at a concrete configuration. -/
theorem claim1_witness :
    (run_fragpipe OSName.posix "/opt/fp" (fun _ => true) false ⟨some [], false, none⟩
      ⟨ExecOutcome.exitZero, "out", "err", []⟩ ⟨2024, 1, 2, 3, 4, 5⟩).1 = RunExit.ok true ∧
    (run_fragpipe OSName.posix "/opt/fp" (fun _ => true) false ⟨some [], false, none⟩
      ⟨ExecOutcome.exitNonZero, "out", "err", []⟩ ⟨2024, 1, 2, 3, 4, 5⟩).1 = RunExit.ok false :=
  claim1_run_outcome_matches_exit OSName.posix "fragpipe" "/opt/fp" (fun _ => true)
    false ⟨some [], false, none⟩ ⟨2024, 1, 2, 3, 4, 5⟩ "out" "err" [] rfl rfl

/-- C5: the unsupported-platform error and the executable-not-found error are
raised before any state mutation: the returned world is exactly the input
world — no output directory creation, no staging directory, no redirect log —
and no reconciliation step has run. -/
theorem claim5_precondition_errors_before_mutation (root : String)
    (fs : String → Bool) (us : Bool) (w : World) (beh : ExecBehavior) (t : DateTime) :
    (run_fragpipe OSName.other root fs us w beh t =
      (RunExit.precondError RunError.unsupportedOS, w, ⟨false, false⟩)) ∧
    (∀ os en, executableName os = some en → fs (fragpipeExecPath root en) = false →
      run_fragpipe os root fs us w beh t =
        (RunExit.precondError RunError.execNotFound, w, ⟨false, false⟩)) := by
  constructor
  · rfl
  · intro os en hen hfs
    rw [run_fragpipe, hen]
    simp only [hfs, Bool.false_eq_true, if_false]

/-- Witness for C5 at concrete configurations. -/
theorem claim5_witness :
    (run_fragpipe OSName.other "/opt/fp" (fun _ => true) false ⟨none, false, none⟩
      ⟨ExecOutcome.exitZero, "", "", []⟩ ⟨2024, 1, 2, 3, 4, 5⟩ =
      (RunExit.precondError RunError.unsupportedOS, ⟨none, false, none⟩, ⟨false, false⟩)) ∧
    (run_fragpipe OSName.posix "/opt/fp" (fun _ => false) false ⟨none, false, none⟩
      ⟨ExecOutcome.exitZero, "", "", []⟩ ⟨2024, 1, 2, 3, 4, 5⟩ =
      (RunExit.precondError RunError.execNotFound, ⟨none, false, none⟩, ⟨false, false⟩)) :=
  ⟨(claim5_precondition_errors_before_mutation "/opt/fp" (fun _ => true) false
      ⟨none, false, none⟩ ⟨ExecOutcome.exitZero, "", "", []⟩ ⟨2024, 1, 2, 3, 4, 5⟩).1,
   (claim5_precondition_errors_before_mutation "/opt/fp" (fun _ => false) false
      ⟨none, false, none⟩ ⟨ExecOutcome.exitZero, "", "", []⟩ ⟨2024, 1, 2, 3, 4, 5⟩).2
     OSName.posix "fragpipe" rfl rfl⟩

/-- C9: the built argument vector always carries the memory-ceiling flag with
the requested value rendered as a decimal string, and carries the thread-count
flag with the exact requested value precisely when the requested thread count
is strictly positive; for a non-positive thread count the thread flag is
omitted entirely. -/
theorem claim9_cmd_vector_flags (execPath wf mf wd : String) (ram threads : Int) :
    List.IsInfix ["--ram", toString ram] (buildCmd execPath wf mf wd ram threads) ∧
    (0 < threads → buildCmd execPath wf mf wd ram threads =
      [execPath, "--headless", "--workflow", wf, "--manifest", mf, "--workdir", wd,
       "--ram", toString ram, "--threads", toString threads]) ∧
    (threads ≤ 0 → buildCmd execPath wf mf wd ram threads =
      [execPath, "--headless", "--workflow", wf, "--manifest", mf, "--workdir", wd,
       "--ram", toString ram]) := by
  refine ⟨?_, ?_, ?_⟩
  · refine ⟨[execPath, "--headless", "--workflow", wf, "--manifest", mf, "--workdir", wd],
      if threads > 0 then ["--threads", toString threads] else [], ?_⟩
    simp [buildCmd]
  · intro h
    simp [buildCmd, h]
  · intro h
    rw [buildCmd, if_neg (by omega)]
    simp

/-- Witness for C9 at concrete requests: memory ceiling zero is passed as the
string "0", threads 4 adds the flag, threads -1 and 0 omit it. -/
theorem claim9_witness :
    List.IsInfix ["--ram", toString (0 : Int)]
      (buildCmd "fp" "wf" "mf" "wd" 0 (-1)) ∧
    buildCmd "fp" "wf" "mf" "wd" 0 4 =
      ["fp", "--headless", "--workflow", "wf", "--manifest", "mf", "--workdir", "wd",
       "--ram", "0", "--threads", "4"] ∧
    buildCmd "fp" "wf" "mf" "wd" 0 (-1) =
      ["fp", "--headless", "--workflow", "wf", "--manifest", "mf", "--workdir", "wd",
       "--ram", "0"] :=
  ⟨(claim9_cmd_vector_flags "fp" "wf" "mf" "wd" 0 (-1)).1,
   (claim9_cmd_vector_flags "fp" "wf" "mf" "wd" 0 4).2.1 (by norm_num),
   (claim9_cmd_vector_flags "fp" "wf" "mf" "wd" 0 (-1)).2.2 (by norm_num)⟩

theorem canonicalLogName_length (ts : String) (h : ts.length = 19) :
    (canonicalLogName ts).length = 27 := by
  show (canonicalLogName ts).data.length = 27
  have hdata : (canonicalLogName ts).data = "log_".data ++ (ts.data ++ ".txt".data) := by
    simp [canonicalLogName, String.data_append]
  rw [hdata]
  simp [List.length_append, (h : ts.data.length = 19)]

/-- C2 (amended): the staging-merge cleanup runs on every exit path of the
execution step — normal success, normal failure, and a propagating
exception — whenever a staging directory was used; the canonical-log
reconciliation, however, runs exactly on the paths where the execution step
did not raise: it is skipped when an exception propagates. -/
theorem claim2_amended_reconciliation_paths (os : OSName) (en root : String)
    (fs : String → Bool) (us : Bool) (w : World) (beh : ExecBehavior) (t : DateTime)
    (hen : executableName os = some en)
    (hfs : fs (fragpipeExecPath root en) = true) :
    ((run_fragpipe os root fs us w beh t).2.2.mergePerformed = us) ∧
    (beh.outcome ≠ ExecOutcome.raised →
      (run_fragpipe os root fs us w beh t).2.2.logReconPerformed = true) ∧
    (beh.outcome = ExecOutcome.raised →
      (run_fragpipe os root fs us w beh t).2.2.logReconPerformed = false) := by
  cases hout : beh.outcome with
  | exitZero =>
    rw [run_fragpipe_ok os en root fs us w beh t true hen hfs (by rw [hout]; rfl)]
    exact ⟨rfl, fun _ => rfl, fun hc => ExecOutcome.noConfusion hc⟩
  | exitNonZero =>
    rw [run_fragpipe_ok os en root fs us w beh t false hen hfs (by rw [hout]; rfl)]
    exact ⟨rfl, fun _ => rfl, fun hc => ExecOutcome.noConfusion hc⟩
  | raised =>
    rw [run_fragpipe_exc os en root fs us w beh t hen hfs (by rw [hout]; rfl)]
    exact ⟨rfl, fun hne => absurd rfl hne, fun _ => rfl⟩

/-- Witness for the amended C2 at a concrete configuration. -/
theorem claim2_witness :
    ((run_fragpipe OSName.posix "/opt/fp" (fun _ => true) true ⟨some [], true, none⟩
        ⟨ExecOutcome.exitNonZero, "out", "err", []⟩ ⟨2024, 1, 2, 3, 4, 5⟩).2.2.mergePerformed
      = true) ∧
    ((run_fragpipe OSName.posix "/opt/fp" (fun _ => true) true ⟨some [], true, none⟩
        ⟨ExecOutcome.exitNonZero, "out", "err", []⟩ ⟨2024, 1, 2, 3, 4, 5⟩).2.2.logReconPerformed
      = true) :=
  ⟨(claim2_amended_reconciliation_paths OSName.posix "fragpipe" "/opt/fp" (fun _ => true)
      true ⟨some [], true, none⟩ ⟨ExecOutcome.exitNonZero, "out", "err", []⟩
      ⟨2024, 1, 2, 3, 4, 5⟩ rfl rfl).1,
   (claim2_amended_reconciliation_paths OSName.posix "fragpipe" "/opt/fp" (fun _ => true)
      true ⟨some [], true, none⟩ ⟨ExecOutcome.exitNonZero, "out", "err", []⟩
      ⟨2024, 1, 2, 3, 4, 5⟩ rfl rfl).2.1 (fun h => ExecOutcome.noConfusion h)⟩

/-- C2 counterexample: a staged run in which the execution step raises an
exception other than the handled non-zero-exit error.  The finally-block
staging merge does run, but the canonical-log reconciliation does not — the
redirect log file is still present in the final output directory afterward,
contradicting the claim that both reconciliation steps are performed on every
exit path. -/
theorem claim2_counterexample :
    ((run_fragpipe OSName.posix "/opt/fp" (fun _ => true) true ⟨some [], true, none⟩
        ⟨ExecOutcome.raised, "partial", "err", []⟩ ⟨2024, 1, 2, 3, 4, 5⟩).2.2.mergePerformed
      = true) ∧
    ((run_fragpipe OSName.posix "/opt/fp" (fun _ => true) true ⟨some [], true, none⟩
        ⟨ExecOutcome.raised, "partial", "err", []⟩ ⟨2024, 1, 2, 3, 4, 5⟩).2.2.logReconPerformed
      = false) ∧
    findEntry ((run_fragpipe OSName.posix "/opt/fp" (fun _ => true) true ⟨some [], true, none⟩
        ⟨ExecOutcome.raised, "partial", "err", []⟩ ⟨2024, 1, 2, 3, 4, 5⟩).2.1.outputDir.getD [])
      redirectLogName = some (FsEntry.file "partial") := by
  rw [run_fragpipe_exc OSName.posix "fragpipe" "/opt/fp" (fun _ => true) true
    ⟨some [], true, none⟩ ⟨ExecOutcome.raised, "partial", "err", []⟩
    ⟨2024, 1, 2, 3, 4, 5⟩ rfl rfl rfl]
  refine ⟨rfl, rfl, ?_⟩
  simp [postExecDir, preExecDir, applyWrites, move_and_replace_folder_contents,
    setEntry, findEntry]

/-- C3 (amended): after every `run_fragpipe` invocation that returns, the
final output directory contains at least one canonical log file — either one
the external tool wrote or the redirect log renamed to a freshly timestamped
canonical name — and the redirect log file no longer exists there. -/
theorem claim3_amended_log_present_redirect_gone (os : OSName) (en root : String)
    (fs : String → Bool) (us : Bool) (w : World) (beh : ExecBehavior) (t : DateTime) (b : Bool)
    (hen : executableName os = some en)
    (hfs : fs (fragpipeExecPath root en) = true)
    (hexec : execClassify beh.outcome = some b) :
    ∃ d', (run_fragpipe os root fs us w beh t).2.1.outputDir = some d' ∧
      (∃ n ∈ keys d', isCanonicalLogName n = true) ∧
      findEntry d' redirectLogName = none := by
  rw [run_fragpipe_ok os en root fs us w beh t b hen hfs hexec]
  refine ⟨_, rfl, ?_, ?_⟩
  · exact (logReconcile_has_log _ _ (postExecDir_redirect_isSome us w beh)
      (strftimeTimestamp_length t)).1
  · exact (logReconcile_has_log _ _ (postExecDir_redirect_isSome us w beh)
      (strftimeTimestamp_length t)).2

/-- Witness for the amended C3 at a concrete configuration. -/
theorem claim3_witness :
    ∃ d', (run_fragpipe OSName.posix "/opt/fp" (fun _ => true) false ⟨some [], false, none⟩
        ⟨ExecOutcome.exitZero, "out", "err", []⟩ ⟨2024, 1, 2, 3, 4, 5⟩).2.1.outputDir = some d' ∧
      (∃ n ∈ keys d', isCanonicalLogName n = true) ∧
      findEntry d' redirectLogName = none :=
  claim3_amended_log_present_redirect_gone OSName.posix "fragpipe" "/opt/fp" (fun _ => true)
    false ⟨some [], false, none⟩ ⟨ExecOutcome.exitZero, "out", "err", []⟩
    ⟨2024, 1, 2, 3, 4, 5⟩ true rfl rfl rfl

/-- C3 counterexample: a run into an output directory that already holds a
canonical log from an earlier run, during which the tool writes its own new
canonical log.  The run returns, yet the final output directory then contains
two canonical log files, not exactly one. -/
theorem claim3_counterexample :
    countCanonicalLogs
      ((run_fragpipe OSName.posix "/opt/fp" (fun _ => true) false
        ⟨some [("log_2024-01-01_00-00-00.txt", FsEntry.file "old")], false, none⟩
        ⟨ExecOutcome.exitZero, "out", "err",
          [("log_2025-01-01_00-00-00.txt", FsEntry.file "new")]⟩
        ⟨2026, 1, 1, 0, 0, 0⟩).2.1.outputDir.getD []) = 2 := by
  rw [run_fragpipe_ok OSName.posix "fragpipe" "/opt/fp" (fun _ => true) false
    ⟨some [("log_2024-01-01_00-00-00.txt", FsEntry.file "old")], false, none⟩
    ⟨ExecOutcome.exitZero, "out", "err",
      [("log_2025-01-01_00-00-00.txt", FsEntry.file "new")]⟩
    ⟨2026, 1, 1, 0, 0, 0⟩ true rfl rfl rfl]
  have h24 : isCanonicalLogName "log_2024-01-01_00-00-00.txt" = true := by decide
  have h25 : isCanonicalLogName "log_2025-01-01_00-00-00.txt" = true := by decide
  have hle : ¬ (("log_2025-01-01_00-00-00.txt" : String) ≤ "log_2024-01-01_00-00-00.txt") := by
    rw [String.le_iff_toList_le]
    decide
  simp [postExecDir, preExecDir, applyWrites, setEntry, redirectLogName, logReconcile,
    find_latest_log_file, keys, List.filter_cons, h24, h25, isCanonicalLogName_redirect,
    listMaxStr, hle, removeEntry, countCanonicalLogs, renameEntry, findEntry]

/-- C10: the canonical log filename synthesized from the strftime timestamp
always has exactly 27 characters and satisfies the recognition rule of
`_find_latest_log_file`; consequently every `run_fragpipe` invocation that
returns leaves at least one recognized canonical log in the final output
directory, so `search_results_exist` holds there afterward. -/
theorem claim10_synthesized_log_recognized (os : OSName) (en root : String)
    (fs : String → Bool) (us : Bool) (w : World) (beh : ExecBehavior) (t : DateTime) (b : Bool)
    (hen : executableName os = some en)
    (hfs : fs (fragpipeExecPath root en) = true)
    (hexec : execClassify beh.outcome = some b) :
    ((canonicalLogName (strftimeTimestamp t)).length = 27 ∧
     isCanonicalLogName (canonicalLogName (strftimeTimestamp t)) = true) ∧
    ∃ d', (run_fragpipe os root fs us w beh t).2.1.outputDir = some d' ∧
      search_results_exist (PathState.dirAt d') = true := by
  refine ⟨⟨canonicalLogName_length _ (strftimeTimestamp_length t),
    isCanonicalLogName_of_parts _ (strftimeTimestamp_length t)⟩, ?_⟩
  rw [run_fragpipe_ok os en root fs us w beh t b hen hfs hexec]
  refine ⟨_, rfl, ?_⟩
  obtain ⟨⟨n, hn, hcanon⟩, _⟩ := logReconcile_has_log _ _
    (postExecDir_redirect_isSome us w beh) (strftimeTimestamp_length t)
  have hsome := find_latest_log_file_isSome _ n hn hcanon
  simp [search_results_exist, hsome]

/-- Witness for C10 at a concrete configuration. -/
theorem claim10_witness :
    ((canonicalLogName (strftimeTimestamp ⟨2024, 1, 2, 3, 4, 5⟩)).length = 27 ∧
     isCanonicalLogName (canonicalLogName (strftimeTimestamp ⟨2024, 1, 2, 3, 4, 5⟩)) = true) ∧
    ∃ d', (run_fragpipe OSName.posix "/opt/fp" (fun _ => true) false ⟨some [], false, none⟩
        ⟨ExecOutcome.exitNonZero, "out", "err", []⟩ ⟨2024, 1, 2, 3, 4, 5⟩).2.1.outputDir
        = some d' ∧
      search_results_exist (PathState.dirAt d') = true :=
  claim10_synthesized_log_recognized OSName.posix "fragpipe" "/opt/fp" (fun _ => true)
    false ⟨some [], false, none⟩ ⟨ExecOutcome.exitNonZero, "out", "err", []⟩
    ⟨2024, 1, 2, 3, 4, 5⟩ false rfl rfl rfl

/-- Characterization of the recognition rule: a name is a canonical log name
exactly when its character sequence is `log_`, then some middle part, then
`.txt`, with total length 27 — the glob `log_*.txt` plus the exact-length
filter of execute.py line 229. -/
theorem isCanonicalLogName_iff (n : String) :
    isCanonicalLogName n = true ↔
      (∃ mid : List Char, n.data = "log_".data ++ mid ++ ".txt".data) ∧ n.length = 27 := by
  rw [isCanonicalLogName]
  simp only [Bool.and_eq_true, beq_iff_eq]
  constructor
  · rintro ⟨⟨htake, hdrop⟩, hlen⟩
    refine ⟨⟨(n.data.drop 4).take 19, ?_⟩, hlen⟩
    have hsplit : n.data = n.data.take 4 ++ n.data.drop 4 :=
      (List.take_append_drop 4 n.data).symm
    have hsplit2 : n.data.drop 4 =
        (n.data.drop 4).take 19 ++ ((n.data.drop 4).drop 19) :=
      (List.take_append_drop 19 (n.data.drop 4)).symm
    have hdrop23 : (n.data.drop 4).drop 19 = ".txt".data := by
      rw [List.drop_drop]
      exact hdrop
    calc n.data = n.data.take 4 ++ n.data.drop 4 := hsplit
      _ = "log_".data ++ ((n.data.drop 4).take 19 ++ ".txt".data) := by
          rw [htake, ← hdrop23, ← hsplit2]
      _ = "log_".data ++ (n.data.drop 4).take 19 ++ ".txt".data := by
          rw [List.append_assoc]
  · rintro ⟨⟨mid, hmid⟩, hlen⟩
    have hmidlen : mid.length = 19 := by
      have h27 : n.data.length = 27 := hlen
      rw [hmid] at h27
      simp only [List.length_append, List.length_cons, List.length_nil] at h27
      omega
    refine ⟨⟨?_, ?_⟩, hlen⟩
    · rw [hmid, List.append_assoc]
      have hlog : ("log_".data : List Char).length = 4 := by decide
      exact hlog ▸ List.take_left "log_".data (mid ++ ".txt".data)
    · rw [hmid]
      have h23 : ("log_".data ++ mid).length = 23 := by
        simp only [List.length_append, hmidlen]
        decide
      exact h23 ▸ List.drop_left ("log_".data ++ mid) ".txt".data

/-- C6: `_find_latest_log_file` considers exactly the entries whose names
start with `log_`, end with `.txt` and have total length exactly 27; it
returns nothing when no such entry exists, and otherwise the maximum of the
matching names in lexical order (that is, the first element of the
reverse-sorted list). -/
theorem claim6_latest_log_selection (d : DirT) :
    (∀ n : String, isCanonicalLogName n = true ↔
      (∃ mid : List Char, n.data = "log_".data ++ mid ++ ".txt".data) ∧ n.length = 27) ∧
    (find_latest_log_file d = none ↔ ∀ n ∈ keys d, isCanonicalLogName n = false) ∧
    (∀ m, find_latest_log_file d = some m →
      m ∈ keys d ∧ isCanonicalLogName m = true ∧
        ∀ n ∈ keys d, isCanonicalLogName n = true → n ≤ m) :=
  ⟨isCanonicalLogName_iff, find_latest_log_file_eq_none_iff d,
   fun m h => find_latest_log_file_spec d m h⟩

/-- Witness for C6 at concrete directories: the recognition rule accepts a
well-formed 27-character name, an unrelated directory has no latest log, and
between two canonical logs the lexically larger is at least the smaller. -/
theorem claim6_witness :
    isCanonicalLogName "log_2024-01-01_00-00-00.txt" = true ∧
    find_latest_log_file [("a.txt", FsEntry.file "")] = none ∧
    ("log_2024-01-01_00-00-00.txt" : String) ≤ "log_2025-01-01_00-00-00.txt" := by
  have h24 : isCanonicalLogName "log_2024-01-01_00-00-00.txt" = true := by decide
  have h25 : isCanonicalLogName "log_2025-01-01_00-00-00.txt" = true := by decide
  have hle : ¬ (("log_2025-01-01_00-00-00.txt" : String) ≤ "log_2024-01-01_00-00-00.txt") := by
    rw [String.le_iff_toList_le]
    decide
  refine ⟨?_, ?_, ?_⟩
  · exact (claim6_latest_log_selection []).1 "log_2024-01-01_00-00-00.txt" |>.mpr
      ⟨⟨"2024-01-01_00-00-00".data, by decide⟩, by decide⟩
  · exact (claim6_latest_log_selection [("a.txt", FsEntry.file "")]).2.1.mpr
      (by
        intro n hn
        simp only [keys, List.map_cons, List.map_nil, List.mem_singleton] at hn
        subst hn
        decide)
  · have hfind : find_latest_log_file
        [("log_2024-01-01_00-00-00.txt", FsEntry.file ""),
         ("log_2025-01-01_00-00-00.txt", FsEntry.file "")] =
        some "log_2025-01-01_00-00-00.txt" := by
      simp [find_latest_log_file, keys, List.filter_cons, h24, h25, listMaxStr, hle]
    exact ((claim6_latest_log_selection
        [("log_2024-01-01_00-00-00.txt", FsEntry.file ""),
         ("log_2025-01-01_00-00-00.txt", FsEntry.file "")]).2.2
      "log_2025-01-01_00-00-00.txt" hfind).2.2
      "log_2024-01-01_00-00-00.txt" (by simp [keys]) h24

/-- C7: `search_results_exist` is a pure predicate (it is a total function on
the filesystem model, so it cannot raise or mutate): false for a missing path
or a non-directory path, true for a directory holding a canonical log even
with nothing else, true for a directory holding `combined_protein.tsv` even
with no log, and false for an existing directory with neither signal. -/
theorem claim7_search_results_cases :
    (search_results_exist PathState.missing = false) ∧
    (∀ c, search_results_exist (PathState.fileAt c) = false) ∧
    (∀ (d : DirT) (n : String), n ∈ keys d → isCanonicalLogName n = true →
      search_results_exist (PathState.dirAt d) = true) ∧
    (∀ d : DirT, (findEntry d combinedProteinName).isSome = true →
      search_results_exist (PathState.dirAt d) = true) ∧
    (∀ d : DirT, (∀ n ∈ keys d, isCanonicalLogName n = false) →
      findEntry d combinedProteinName = none →
      search_results_exist (PathState.dirAt d) = false) := by
  refine ⟨rfl, fun c => rfl, ?_, ?_, ?_⟩
  · intro d n hn hc
    simp [search_results_exist, find_latest_log_file_isSome d n hn hc]
  · intro d h
    cases hfl : (find_latest_log_file d).isSome <;>
      simp [search_results_exist, hfl, h]
  · intro d hnone hprot
    have hfl : find_latest_log_file d = none :=
      (find_latest_log_file_eq_none_iff d).mpr hnone
    simp [search_results_exist, hfl, hprot]

/-- Witness for C7 at concrete directories. -/
theorem claim7_witness :
    search_results_exist
      (PathState.dirAt [("log_2024-01-01_00-00-00.txt", FsEntry.file "")]) = true ∧
    search_results_exist
      (PathState.dirAt [("combined_protein.tsv", FsEntry.file "")]) = true ∧
    search_results_exist (PathState.dirAt []) = false ∧
    search_results_exist PathState.missing = false :=
  ⟨claim7_search_results_cases.2.2.1 _ "log_2024-01-01_00-00-00.txt"
      (by simp [keys]) (by decide),
   claim7_search_results_cases.2.2.2.1 _
      (by simp [findEntry, combinedProteinName]),
   claim7_search_results_cases.2.2.2.2 []
      (by intro n hn; simp [keys] at hn) rfl,
   claim7_search_results_cases.1⟩

/-- C8: the cleanup is idempotent — when a run of
`clean_up_rawfile_directory` completes, running it again on the resulting
state leaves that state unchanged, deletes zero files and does not raise —
and a missing or non-directory path makes the function return without
touching anything or raising. -/
theorem claim8_cleanup_idempotent :
    (∀ (p q : PathState) (k : Nat), clean_up_rawfile_directory p = some (q, k) →
      clean_up_rawfile_directory q = some (q, 0)) ∧
    (clean_up_rawfile_directory PathState.missing = some (PathState.missing, 0)) ∧
    (∀ c, clean_up_rawfile_directory (PathState.fileAt c) = some (PathState.fileAt c, 0)) := by
  refine ⟨?_, rfl, fun c => rfl⟩
  intro p q k h
  cases p with
  | missing =>
    have h2 : (PathState.missing, 0) = (q, k) := Option.some.inj h
    injection h2 with hq hk
    subst hq
    rfl
  | fileAt c =>
    have h2 : (PathState.fileAt c, 0) = (q, k) := Option.some.inj h
    injection h2 with hq hk
    subst hq
    rfl
  | dirAt d =>
    rcases hce : cleanEntries d with _ | r
    · exact absurd h (by simp [clean_up_rawfile_directory, hce])
    · obtain ⟨d', k'⟩ := r
      have h3 : clean_up_rawfile_directory (PathState.dirAt d) = some (PathState.dirAt d', k') := by
        simp [clean_up_rawfile_directory, hce]
      rw [h3] at h
      have h2 : (PathState.dirAt d', k') = (q, k) := Option.some.inj h
      injection h2 with hq hk
      subst hq
      simp [clean_up_rawfile_directory, cleanEntries_idem d d' k' hce]

/-- Witness for C8: a directory holding one temporary artifact and one other
file; the first run deletes the artifact, the second run is a no-op. -/
theorem claim8_witness :
    clean_up_rawfile_directory (PathState.dirAt [("b", FsEntry.file "keep")]) =
      some (PathState.dirAt [("b", FsEntry.file "keep")], 0) :=
  claim8_cleanup_idempotent.1
    (PathState.dirAt [("a.mzBIN", FsEntry.file "x"), ("b", FsEntry.file "keep")])
    (PathState.dirAt [("b", FsEntry.file "keep")]) 1
    (by
      have hma : matchesTempPattern "a.mzBIN" = true := by decide
      have hmb : matchesTempPattern "b" = false := by decide
      simp [clean_up_rawfile_directory, cleanEntries, anyMatchingDir, removeMatching,
        countMatching, hma, hmb])

/-- C4 (amended): the merge of `_move_and_replace_folder_contents` is a
destructive recursive merge — directory pairs merge recursively, any other
destination conflict is replaced by the source entry, every source name ends
up present in the merged result — and after a staged run that returns, the
staging subdirectory no longer exists and every entry the process wrote under
it, other than one named like the redirect log (which the subsequent log
reconciliation may delete or rename), exists under the final directory. -/
theorem claim4_amended_destructive_merge (os : OSName) (en root : String)
    (fs : String → Bool) (w : World) (beh : ExecBehavior) (t : DateTime) (b : Bool)
    (hen : executableName os = some en)
    (hfs : fs (fragpipeExecPath root en) = true)
    (hexec : execClassify beh.outcome = some b) :
    (∀ (src : List (String × FsEntry)) (dest : DirT) (q : String),
      (src.map Prod.fst).Nodup →
      findEntry (move_and_replace_folder_contents src dest) q =
        match findEntry src q, findEntry dest q with
        | some (FsEntry.dir se), some (FsEntry.dir de) =>
          some (FsEntry.dir (move_and_replace_folder_contents se de))
        | some s, _ => some s
        | none, _ => findEntry dest q) ∧
    (∀ (src : List (String × FsEntry)) (dest : DirT) (q : String),
      q ∈ src.map Prod.fst →
      (findEntry (move_and_replace_folder_contents src dest) q).isSome = true) ∧
    ((run_fragpipe os root fs true w beh t).2.1.stagingSubdir = none) ∧
    (∀ n ∈ keys (applyWrites [] beh.writes), n ≠ redirectLogName →
      ∃ d', (run_fragpipe os root fs true w beh t).2.1.outputDir = some d' ∧
        (findEntry d' n).isSome = true) := by
  refine ⟨fun src dest q hnd => merge_findEntry_eq src dest q hnd,
    fun src dest q hq => merge_findEntry_mem src dest q hq, ?_, ?_⟩
  · rw [run_fragpipe_ok os en root fs true w beh t b hen hfs hexec]
    rfl
  · intro n hn hne
    rw [run_fragpipe_ok os en root fs true w beh t b hen hfs hexec]
    refine ⟨_, rfl, ?_⟩
    apply logReconcile_preserves _ _ n hne
    show (findEntry (postExecDir true w beh) n).isSome = true
    rw [postExecDir, if_pos rfl]
    exact merge_findEntry_mem _ _ n hn

/-- Witness for the amended C4: a concrete merge where the staged file
replaces the conflicting destination file, and a concrete staged run whose
staging subdirectory is gone afterward while the staged result file survives
in the final directory. -/
theorem claim4_witness :
    findEntry (move_and_replace_folder_contents
      [("a", FsEntry.file "x")] [("a", FsEntry.file "y"), ("b", FsEntry.file "z")]) "a" =
      some (FsEntry.file "x") ∧
    ((run_fragpipe OSName.posix "/opt/fp" (fun _ => true) true ⟨some [], true, none⟩
        ⟨ExecOutcome.exitZero, "out", "err", [("r.tsv", FsEntry.file "v")]⟩
        ⟨2024, 1, 2, 3, 4, 5⟩).2.1.stagingSubdir = none) ∧
    (∃ d', (run_fragpipe OSName.posix "/opt/fp" (fun _ => true) true ⟨some [], true, none⟩
        ⟨ExecOutcome.exitZero, "out", "err", [("r.tsv", FsEntry.file "v")]⟩
        ⟨2024, 1, 2, 3, 4, 5⟩).2.1.outputDir = some d' ∧
      (findEntry d' "r.tsv").isSome = true) := by
  have hmain := claim4_amended_destructive_merge OSName.posix "fragpipe" "/opt/fp"
    (fun _ => true) ⟨some [], true, none⟩
    ⟨ExecOutcome.exitZero, "out", "err", [("r.tsv", FsEntry.file "v")]⟩
    ⟨2024, 1, 2, 3, 4, 5⟩ true rfl rfl rfl
  refine ⟨?_, hmain.2.2.1, ?_⟩
  · rw [hmain.1 [("a", FsEntry.file "x")] [("a", FsEntry.file "y"), ("b", FsEntry.file "z")]
      "a" (by simp)]
    simp [findEntry]
  · exact hmain.2.2.2 "r.tsv" (by simp [applyWrites, setEntry, keys]) (by decide)

/-- C4 counterexample: a staged run in which the external tool writes, inside
the staging directory, both a file named like the redirect log and a canonical
log.  The run returns, the merge moves both into the final directory, but the
subsequent log reconciliation deletes the redirect-named entry — so not every
entry that was under the staging directory exists under the final directory
afterward, contradicting the claim as stated. -/
theorem claim4_counterexample :
    redirectLogName ∈ keys (applyWrites []
      [(redirectLogName, FsEntry.file "x"),
       ("log_2024-01-01_00-00-00.txt", FsEntry.file "y")]) ∧
    ∃ d', (run_fragpipe OSName.posix "/opt/fp" (fun _ => true) true ⟨some [], true, none⟩
        ⟨ExecOutcome.exitZero, "out", "err",
          [(redirectLogName, FsEntry.file "x"),
           ("log_2024-01-01_00-00-00.txt", FsEntry.file "y")]⟩
        ⟨2026, 1, 1, 0, 0, 0⟩).2.1.outputDir = some d' ∧
      findEntry d' redirectLogName = none := by
  have hwrites : applyWrites []
      [(redirectLogName, FsEntry.file "x"),
       ("log_2024-01-01_00-00-00.txt", FsEntry.file "y")] =
      [(redirectLogName, FsEntry.file "x"),
       ("log_2024-01-01_00-00-00.txt", FsEntry.file "y")] := by
    simp [applyWrites, setEntry, redirectLogName]
  have h24 : isCanonicalLogName "log_2024-01-01_00-00-00.txt" = true := by decide
  have hfind : find_latest_log_file
      [(redirectLogName, FsEntry.file "x"),
       ("log_2024-01-01_00-00-00.txt", FsEntry.file "y")] =
      some "log_2024-01-01_00-00-00.txt" := by
    simp [find_latest_log_file, keys, List.filter_cons, isCanonicalLogName_redirect,
      h24, listMaxStr]
  have hmerge : move_and_replace_folder_contents
      [(redirectLogName, FsEntry.file "x"),
       ("log_2024-01-01_00-00-00.txt", FsEntry.file "y")]
      [(redirectLogName, FsEntry.file "out")] =
      [(redirectLogName, FsEntry.file "x"),
       ("log_2024-01-01_00-00-00.txt", FsEntry.file "y")] := by
    rw [move_and_replace_folder_contents]
    rw [show setEntry [(redirectLogName, FsEntry.file "out")] redirectLogName
        (FsEntry.file "x") = [(redirectLogName, FsEntry.file "x")] by
      simp [setEntry]]
    rw [move_and_replace_folder_contents]
    rw [show setEntry [(redirectLogName, FsEntry.file "x")]
        "log_2024-01-01_00-00-00.txt" (FsEntry.file "y") =
        [(redirectLogName, FsEntry.file "x"),
         ("log_2024-01-01_00-00-00.txt", FsEntry.file "y")] by
      simp [setEntry, redirectLogName]]
    rw [move_and_replace_folder_contents]
  have hpost : postExecDir true ⟨some [], true, none⟩
      ⟨ExecOutcome.exitZero, "out", "err",
        [(redirectLogName, FsEntry.file "x"),
         ("log_2024-01-01_00-00-00.txt", FsEntry.file "y")]⟩ =
      [(redirectLogName, FsEntry.file "x"),
       ("log_2024-01-01_00-00-00.txt", FsEntry.file "y")] := by
    have h4 : postExecDir true ⟨some [], true, none⟩
        ⟨ExecOutcome.exitZero, "out", "err",
          [(redirectLogName, FsEntry.file "x"),
           ("log_2024-01-01_00-00-00.txt", FsEntry.file "y")]⟩ =
        move_and_replace_folder_contents
          (applyWrites [] [(redirectLogName, FsEntry.file "x"),
             ("log_2024-01-01_00-00-00.txt", FsEntry.file "y")])
          (setEntry [] redirectLogName (FsEntry.file "out")) := by
      rw [postExecDir, if_pos rfl]
      rfl
    rw [h4, hwrites]
    rw [show setEntry ([] : DirT) redirectLogName (FsEntry.file "out") =
        [(redirectLogName, FsEntry.file "out")] from rfl]
    exact hmerge
  have hrec : logReconcile
      [(redirectLogName, FsEntry.file "x"),
       ("log_2024-01-01_00-00-00.txt", FsEntry.file "y")]
      (strftimeTimestamp ⟨2026, 1, 1, 0, 0, 0⟩) =
      removeEntry
        [(redirectLogName, FsEntry.file "x"),
         ("log_2024-01-01_00-00-00.txt", FsEntry.file "y")] redirectLogName := by
    simp only [logReconcile, hfind]
  constructor
  · rw [hwrites]
    simp [keys]
  · refine ⟨logReconcile
      [(redirectLogName, FsEntry.file "x"),
       ("log_2024-01-01_00-00-00.txt", FsEntry.file "y")]
      (strftimeTimestamp ⟨2026, 1, 1, 0, 0, 0⟩), ?_, ?_⟩
    · rw [run_fragpipe_ok OSName.posix "fragpipe" "/opt/fp" (fun _ => true) true
        ⟨some [], true, none⟩
        ⟨ExecOutcome.exitZero, "out", "err",
          [(redirectLogName, FsEntry.file "x"),
           ("log_2024-01-01_00-00-00.txt", FsEntry.file "y")]⟩
        ⟨2026, 1, 1, 0, 0, 0⟩ true rfl rfl rfl]
      rw [hpost]
    · rw [hrec]
      exact findEntry_removeEntry_self _ _

end FragpipeRunner
